import Mathlib

/-!
Shallow embedding of the playlist-comparison pipeline of the repository
(files `app.py` and `yandex_service.py`).

Python strings are modelled as `List Char`; Python `None`-or-value fields as
`Option`; exceptions as `Except` (the carried string is the exception
message).  The remote network (HTTP client, `yandex_music` client) and the
process environment are modelled as explicit function parameters.  The two
`lru_cache` decorators memoize pure functions and are therefore modelled by
the functions themselves.  `time.sleep` is modelled by recording the slept
durations (as rationals) in a log, and the unspecified iteration order of a
Python `set` by an explicit order parameter.
-/

abbrev Str := List Char

/-! ### Reference parser — `app.py`, `parse_playlist_url_cached` -/

/-- A character admissible inside the `([^/?]+)` group of the uuid pattern. -/
def uuidTokChar (c : Char) : Bool := c ≠ '/' && c ≠ '?'

/-- A character admissible inside the `([^/]+)` group of the users pattern. -/
def ownerChar (c : Char) : Bool := c ≠ '/'

def litUuid : Str := "music.yandex.ru/playlists/".toList

def litUsers : Str := "music.yandex.ru/users/".toList

def litPl : Str := "/playlists/".toList

/-- Match of `music\.yandex\.ru/playlists/([^/?]+)` anchored at the start of
`s`: the literal must be a leading segment and at least one admissible
character must follow; the group is the maximal (greedy) admissible run. -/
def matchUuidAt (s : Str) : Option Str :=
  if litUuid.isPrefixOf s then
    let tok := (s.drop litUuid.length).takeWhile uuidTokChar
    if tok.isEmpty then none else some tok
  else none

/-- `re.search` of the uuid pattern: leftmost position where it matches. -/
def searchUuid : Str → Option Str
  | [] => none
  | c :: cs =>
    match matchUuidAt (c :: cs) with
    | some t => some t
    | none => searchUuid cs

/-- Match of `music\.yandex\.ru/users/([^/]+)/playlists/(\d+)` anchored at
the start of `s`.  Since the first group cannot contain `/` and is followed
by the literal `/playlists/`, the backtracking regex semantics coincide with
taking the maximal slash-free run, then the literal, then the maximal
digit run (`\d` modelled as a decimal ASCII digit). -/
def matchUserAt (s : Str) : Option (Str × Str) :=
  if litUsers.isPrefixOf s then
    let rest := s.drop litUsers.length
    let owner := rest.takeWhile ownerChar
    if owner.isEmpty then none
    else
      let rest2 := rest.dropWhile ownerChar
      if litPl.isPrefixOf rest2 then
        let digits := (rest2.drop litPl.length).takeWhile Char.isDigit
        if digits.isEmpty then none else some (owner, digits)
      else none
  else none

/-- `re.search` of the users pattern: leftmost position where it matches. -/
def searchUser : Str → Option (Str × Str)
  | [] => none
  | c :: cs =>
    match matchUserAt (c :: cs) with
    | some r => some r
    | none => searchUser cs

inductive PlaylistRef where
  | byUuid (uuid : Str)
  | byOwner (owner : Str) (numericId : Str)
deriving DecidableEq

def invalidRefMsg : Str := "Неверный формат ссылки на плейлист".toList

/-- `parse_playlist_url_cached` (`app.py` lines 18–31); the `lru_cache`
memoizes a pure function and is modelled by the function itself.  The raised
`ValueError` is the `.error` branch. -/
def parse_playlist_url (url : Str) : Except Str PlaylistRef :=
  match searchUuid url with
  | some t => .ok (.byUuid t)
  | none =>
    match searchUser url with
    | some (o, d) => .ok (.byOwner o d)
    | none => .error invalidRefMsg

/-! ### Raw track entries — the duck-typed shapes of `yandex_service.py` -/

/-- One element of a `track.artists` list: `name` is `none` when the object
has no `name` attribute, `some none` when the attribute is `None`, and
`some (some s)` when it is the string `s`. -/
structure ArtistObj where
  name : Option (Option Str)
deriving DecidableEq

/-- One element of a `track.albums` list: `id` models
`getattr(album, 'id', None)`. -/
structure AlbumObj where
  id : Option Str
deriving DecidableEq

/-- A raw playlist entry.  Each field models the presence (and value) of the
attribute of the same name; `none` means the attribute is absent (or, for
attributes only consulted behind a truthiness check, `None`).
`fetch_track = some (.error ())` models a present `fetch_track` method whose
call raises; `some (.ok t)` one that returns the full track `t`. -/
inductive Track where
  | mk (id : Option Str) (track_id : Option Str)
       (fetch_track : Option (Except Unit Track))
       (title : Option Str)
       (artists : Option (List ArtistObj))
       (artists_name : Option (List Str))
       (track : Option Track)
       (albums : Option (List AlbumObj))
       (album_id : Option Str)

def Track.id : Track → Option Str
  | .mk i _ _ _ _ _ _ _ _ => i

def Track.track_id : Track → Option Str
  | .mk _ t _ _ _ _ _ _ _ => t

def Track.fetch_track : Track → Option (Except Unit Track)
  | .mk _ _ f _ _ _ _ _ _ => f

def Track.title : Track → Option Str
  | .mk _ _ _ t _ _ _ _ _ => t

def Track.artists : Track → Option (List ArtistObj)
  | .mk _ _ _ _ a _ _ _ _ => a

def Track.artists_name : Track → Option (List Str)
  | .mk _ _ _ _ _ a _ _ _ => a

def Track.track : Track → Option Track
  | .mk _ _ _ _ _ _ t _ _ => t

def Track.albums : Track → Option (List AlbumObj)
  | .mk _ _ _ _ _ _ _ a _ => a

def Track.album_id : Track → Option Str
  | .mk _ _ _ _ _ _ _ _ a => a

/-- Python truthiness of `hasattr(x, f) and x.f` for a string-valued
attribute: present and non-empty. -/
def truthyStr : Option Str → Bool
  | some s => !s.isEmpty
  | none => false

/-- Python truthiness of `hasattr(x, f) and x.f` for a list-valued
attribute: present and non-empty. -/
def truthyList {α : Type} : Option (List α) → Bool
  | some l => !l.isEmpty
  | none => false

/-- `YandexMusicService.get_track_id` (`yandex_service.py` lines 106–116):
the direct `id` attribute if truthy, else `track_id`, else `None`. -/
def get_track_id (track : Track) : Option Str :=
  if truthyStr track.id then track.id
  else if truthyStr track.track_id then track.track_id
  else none

/-! ### Track normalisation — `YandexMusicService.get_track_info` -/

def unknownTrackLit : Str := "Неизвестный трек".toList

def unknownArtistLit : Str := "Неизвестный исполнитель".toList

/-- The inner `try`/`except`/`pass` around `track.fetch_track()`: a raising
call keeps the entry as-is. -/
def fetchStep (track : Track) : Track :=
  match track.fetch_track with
  | some (.ok t) => t
  | some (.error _) => track
  | none => track

/-- `[artist.name for artist in objs if hasattr(artist, 'name')]` — keeps
`None` names. -/
def artistNames (objs : List ArtistObj) : List (Option Str) :=
  objs.filterMap (fun a => a.name)

/-- `', '.join` of a list of strings. -/
def joinComma : List Str → Str
  | [] => []
  | [s] => s
  | s :: rest => s ++ (", ".toList) ++ joinComma rest

structure TrackInfo where
  id : Str
  title : Str
  artists : Str
  url : Str
deriving DecidableEq

/-- The title resolution of `get_track_info`: the direct `title` attribute
with default `'Неизвестный трек'`; when that comparison yields the default
literal and a truthy nested `track` object exists, the nested title with the
same default. -/
def resolveTitle (track : Track) : Str :=
  let title0 := track.title.getD unknownTrackLit
  if title0 = unknownTrackLit then
    match track.track with
    | some inner => inner.title.getD unknownTrackLit
    | none => title0
  else title0

/-- The artists-list resolution of `get_track_info`: the truthy direct
`artists` object list, else the truthy flat `artists_name` list, else the
nested `track.artists` object list when the attribute exists (no truthiness
check there in the source), else the initial `[]`. -/
def resolveArtistsList (track : Track) : List (Option Str) :=
  if truthyList track.artists then artistNames (track.artists.getD [])
  else if truthyList track.artists_name then
    (track.artists_name.getD []).map some
  else
    match track.track with
    | some inner =>
      match inner.artists with
      | some objs => artistNames objs
      | none => []
    | none => []

/-- `', '.join(artists) if artists else 'Неизвестный исполнитель'` — the
join raises a `TypeError` (the `.error` branch) when a collected `name`
attribute is `None`. -/
def resolveArtistsStr (artists : List (Option Str)) : Except Unit Str :=
  if artists.isEmpty then .ok unknownArtistLit
  else if artists.all (fun p => p.isSome) then
    .ok (joinComma (artists.filterMap (fun x => x)))
  else .error ()

/-- The album-id resolution of `get_track_info`: first element of the truthy
direct `albums` list, else the truthy `album_id` attribute, else the first
element of the truthy nested `track.albums` list. -/
def resolveAlbumId (track : Track) : Option Str :=
  if truthyList track.albums then
    ((track.albums.getD []).head?.bind (fun a => a.id))
  else if truthyStr track.album_id then track.album_id
  else
    match track.track with
    | some inner =>
      if truthyList inner.albums then
        ((inner.albums.getD []).head?.bind (fun a => a.id))
      else none
    | none => none

/-- URL construction of `get_track_info`. -/
def buildUrl (album_id : Option Str) (track_id : Str) : Str :=
  if truthyStr album_id then
    "https://music.yandex.ru/album/".toList ++ album_id.getD []
      ++ "/track/".toList ++ track_id
  else
    "https://music.yandex.ru/track/".toList ++ track_id

/-- The body of the `try:` block of `get_track_info` (`yandex_service.py`
lines 118–172); the `.error` branch arises exactly where the Python code can
raise, namely at `', '.join(artists)` when some collected artist `name`
attribute is `None` (a `TypeError`). -/
def get_track_info_inner (track0 : Track) : Except Unit (Option TrackInfo) :=
  match get_track_id track0 with
  | none => .ok none
  | some track_id =>
    let track := fetchStep track0
    match resolveArtistsStr (resolveArtistsList track) with
    | .error e => .error e
    | .ok artists_str =>
      .ok (some ⟨track_id, resolveTitle track, artists_str,
        buildUrl (resolveAlbumId track) track_id⟩)

/-- The whole body of `get_track_info` including the final catch-all
`except ...: return None`. -/
def get_track_info_body (track : Track) : Except Unit (Option TrackInfo) :=
  match get_track_info_inner track with
  | .ok r => .ok r
  | .error _ => .ok none

/-- `get_track_info` as seen by callers (the value the decorated function
returns). -/
def get_track_info (track : Track) : Option TrackInfo :=
  match get_track_info_inner track with
  | .ok r => r
  | .error _ => none

/-! ### Retry wrapper — `yandex_service.py`, `retry_on_error` -/

/-- The `for attempt in range(max_retries)` loop of `retry_on_error`,
with `remaining` iterations left and `attempt` the current 0-indexed
attempt.  `f n` is the outcome of the wrapped callable on its `n`-th
invocation.  Returns the outcome (`.ok none` models the `return None`
after the loop, reachable only when `max_retries = 0`), the list of slept
durations, and the number of invocations of `f`. -/
def retry_go {E A : Type} (delay : ℚ) (f : Nat → Except E A) (attempt : Nat) :
    Nat → Except E (Option A) × List ℚ × Nat
  | 0 => (.ok none, [], 0)
  | remaining + 1 =>
    match f attempt with
    | .ok a => (.ok (some a), [], 1)
    | .error e =>
      if remaining = 0 then (.error e, [], 1)
      else
        let r := retry_go delay f (attempt + 1) remaining
        (r.1, delay * ((attempt : ℚ) + 1) :: r.2.1, r.2.2 + 1)

/-- `retry_on_error(max_retries, delay)` applied to a callable `f`
(`yandex_service.py` lines 13–28). -/
def retry_on_error {E A : Type} (max_retries : Nat) (delay : ℚ)
    (f : Nat → Except E A) : Except E (Option A) × List ℚ × Nat :=
  retry_go delay f 0 max_retries

/-- The decorated `get_track_info`: `@retry_on_error(max_retries=3,
delay=0.5)` around `get_track_info_body`. -/
def get_track_info_retry (track : Track) :
    Except Unit (Option (Option TrackInfo)) × List ℚ × Nat :=
  retry_on_error 3 (1 / 2) (fun _ => get_track_info_body track)

/-! ### Playlist dictionaries — `app.py`, `process_playlist` -/

/-- `tracks_dict[track_id] = track` on a Python dict modelled as an
insertion-ordered association list: an existing binding is updated in
place, a new key is appended. -/
def dictInsert (m : List (Str × Track)) (k : Str) (v : Track) :
    List (Str × Track) :=
  if m.any (fun p => p.1 == k) then
    m.map (fun p => if p.1 == k then (k, v) else p)
  else m ++ [(k, v)]

/-- The dict-building loop of `process_playlist` (`app.py` lines 42–46). -/
def build_tracks_dict (tracks : List Track) : List (Str × Track) :=
  tracks.foldl (fun m track =>
    match get_track_id track with
    | some tid => dictInsert m tid track
    | none => m) []

def dictKeys (m : List (Str × Track)) : List Str := m.map Prod.fst

def dictGet (m : List (Str × Track)) (k : Str) : Option Track :=
  (m.find? (fun p => p.1 == k)).map Prod.snd

/-- `process_playlist` (`app.py` lines 33–51): fetch the entries for the
reference (the fetch — network plus `yandex_music` client — is the
parameter `fetch`), then build the id-keyed dict.  The `except ...: raise`
re-raises unchanged. -/
def process_playlist (fetch : PlaylistRef → Except Str (List Track))
    (ref : PlaylistRef) : Except Str (List (Str × Track)) :=
  match fetch ref with
  | .ok tracks => .ok (build_tracks_dict tracks)
  | .error e => .error e

/-! ### Comparator — `app.py`, `process_playlists_async` -/

/-- Lexicographic `≤` on strings, Python's comparison of the sort keys. -/
def strLe : Str → Str → Bool
  | [], _ => true
  | _ :: _, [] => false
  | a :: as, b :: bs => if a < b then true else if a = b then strLe as bs else false

def lowerStr (s : Str) : Str := s.map Char.toLower

/-- The sort key comparison of `common_tracks.sort(key=lambda x:
x['title'].lower())`. -/
def trackLe (a b : TrackInfo) : Prop :=
  strLe (lowerStr a.title) (lowerStr b.title) = true

instance : DecidableRel trackLe := fun _ _ => instDecidableEqBool _ _

/-- The collection loop over the common ids: `track = tracks1_dict[track_id];
info = service.get_track_info(track); if info: common_tracks.append(info)`.
The `order` argument is the iteration order of the Python set
`common_ids`. -/
def collect_common (d1 : List (Str × Track)) (order : List Str) :
    List TrackInfo :=
  order.filterMap (fun tid => (dictGet d1 tid).bind get_track_info)

/-- Collection followed by the stable sort on the lowered title (Python's
`list.sort` is stable; so is `insertionSort`). -/
def compare_entries (d1 : List (Str × Track)) (order : List Str) :
    List TrackInfo :=
  List.insertionSort trackLe (collect_common d1 order)

/-- `set(tracks1_dict.keys()) & set(tracks2_dict.keys())` as a canonical
duplicate-free list (Python set iteration order is applied on top of it by
the `setOrder` parameter of the pipeline). -/
def common_ids (d1 d2 : List (Str × Track)) : List Str :=
  (dictKeys d1).filter (fun k => (dictKeys d2).contains k)

structure CompareResult where
  common_tracks : List TrackInfo
  error : Option Str
deriving DecidableEq

/-- `process_playlists_async` (`app.py` lines 53–93).

`fetch` abstracts the two service retrieval paths; `firstDone1` records
which of the two submitted futures completes first (`results` is filled in
`as_completed` order, so `tracks1_dict, tracks2_dict = results` binds
`tracks1_dict` to the dict of the FIRST-COMPLETED fetch); `setOrder` is
the iteration order of the Python set of common ids.  When a future's
computation raised, `future.result()` re-raises at the first point the
iteration reaches it, so with both fetches failing the first-completed
exception is the one caught. -/
def process_playlists_async (fetch : PlaylistRef → Except Str (List Track))
    (firstDone1 : Bool) (setOrder : List Str → List Str)
    (url1 url2 : Str) : CompareResult :=
  match parse_playlist_url url1 with
  | .error e => ⟨[], some e⟩
  | .ok p1 =>
    match parse_playlist_url url2 with
    | .error e => ⟨[], some e⟩
    | .ok p2 =>
      match process_playlist fetch p1, process_playlist fetch p2 with
      | .error e1, .error e2 => ⟨[], some (if firstDone1 then e1 else e2)⟩
      | .error e1, .ok _ => ⟨[], some e1⟩
      | .ok _, .error e2 => ⟨[], some e2⟩
      | .ok d1, .ok d2 =>
        let tracks1_dict := if firstDone1 then d1 else d2
        let tracks2_dict := if firstDone1 then d2 else d1
        ⟨compare_entries tracks1_dict
           (setOrder (common_ids tracks1_dict tracks2_dict)), none⟩

/-! ### UUID fetch path — `YandexMusicService.get_tracks_by_uuid` -/

/-- One element of the parsed JSON `result.tracks`: `track_id` models
`track_info.get('track', {}).get('id')`. -/
structure UuidTrackEntry where
  track_id : Option Str
deriving DecidableEq

/-- The HTTP response for the direct REST call: status code and the parsed
JSON body reduced to the only parts the code reads. -/
structure UuidHttpResponse where
  status_code : Nat
  tracks_data : List UuidTrackEntry

def envTokenName : Str := "YANDEX_OAUTH_TOKEN".toList

def missingTokenMsg : Str :=
  "YANDEX_OAUTH_TOKEN environment variable is not set!".toList

/-- The `except Exception` wrapper of `get_tracks_by_uuid` re-raises
`ValueError("Не удалось получить треки по UUID: " + str(e))`. -/
def uuidWrapMsg (e : Str) : Str :=
  "Не удалось получить треки по UUID: ".toList ++ e

/-- `get_tracks_by_uuid` (`yandex_service.py` lines 62–104).  `env` is the
process environment, `http` the HTTP GET against the fixed endpoint
templated with the playlist uuid, `client_tracks` the
`self.client.tracks` batch lookup.  The second component counts HTTP GET
requests actually issued.  The `lru_cache` memoizes a pure function of the
uuid and is modelled by the function itself. -/
def get_tracks_by_uuid (env : Str → Option Str) (http : Str → UuidHttpResponse)
    (client_tracks : List Str → Except Str (List Track))
    (playlist_uuid : Str) : Except Str (List Track) × Nat :=
  let oauth_token := env envTokenName
  if !truthyStr oauth_token then (.error (uuidWrapMsg missingTokenMsg), 0)
  else
    let response := http playlist_uuid
    if response.status_code == 200 then
      let track_ids := response.tracks_data.filterMap (fun ti =>
        match ti.track_id with
        | some s => if s.isEmpty then none else some s
        | none => none)
      if !track_ids.isEmpty then
        match client_tracks track_ids with
        | .ok ts => (.ok ts, 1)
        | .error e => (.error (uuidWrapMsg e), 1)
      else (.ok [], 1)
    else
      (.error (uuidWrapMsg (("Ошибка при запросе: ".toList)
        ++ (toString response.status_code).toList)), 1)

/-! ### Request endpoint — `app.py`, `index` (POST branch) -/

inductive JVal where
  | str (s : Str)
  | null
  | tracks (l : List TrackInfo)
deriving DecidableEq

/-- Python `str.strip()` restricted to whitespace. -/
def pyStrip (s : Str) : Str :=
  ((s.dropWhile Char.isWhitespace).reverse.dropWhile Char.isWhitespace).reverse

def bothLinksMsg : Str := "Введите обе ссылки на плейлисты".toList

/-- The AJAX POST branch of `index` (`app.py` lines 97–113): the returned
JSON object as an ordered key/value list. -/
def index_post (fetch : PlaylistRef → Except Str (List Track))
    (firstDone1 : Bool) (setOrder : List Str → List Str)
    (raw1 raw2 : Str) : List (Str × JVal) :=
  let url1 := pyStrip raw1
  let url2 := pyStrip raw2
  if url1.isEmpty || url2.isEmpty then [("error".toList, .str bothLinksMsg)]
  else
    match parse_playlist_url url1 with
    | .error e => [("error".toList, .str e)]
    | .ok _ =>
      match parse_playlist_url url2 with
      | .error e => [("error".toList, .str e)]
      | .ok _ =>
        let result := process_playlists_async fetch firstDone1 setOrder url1 url2
        [("common_tracks".toList, .tracks result.common_tracks),
         ("error".toList,
           match result.error with | some e => .str e | none => .null)]

/-! ### Parser correctness (claim C1) -/

/-- `u` is the group captured by a match of the uuid pattern inside `s`: a
maximal non-empty admissible run placed right after an occurrence of the
literal. -/
def IsUuidMatch (s u : Str) : Prop :=
  ∃ p q, s = p ++ litUuid ++ u ++ q ∧ u ≠ [] ∧ (∀ c ∈ u, uuidTokChar c = true) ∧
    (∀ c, q.head? = some c → uuidTokChar c = false)

/-- `s` contains the shape `music.yandex.ru/playlists/<token>`. -/
def ContainsUuid (s : Str) : Prop :=
  ∃ p t q, s = p ++ litUuid ++ t ++ q ∧ t ≠ [] ∧ ∀ c ∈ t, uuidTokChar c = true

/-- `(o, d)` are the groups captured by a match of the users pattern
inside `s`. -/
def IsUserMatch (s o d : Str) : Prop :=
  ∃ p q, s = p ++ litUsers ++ o ++ litPl ++ d ++ q ∧
    o ≠ [] ∧ (∀ c ∈ o, ownerChar c = true) ∧
    d ≠ [] ∧ (∀ c ∈ d, c.isDigit = true) ∧
    (∀ c, q.head? = some c → c.isDigit = false)

/-- `s` contains the shape `music.yandex.ru/users/<owner>/playlists/<digits>`. -/
def ContainsUser (s : Str) : Prop :=
  ∃ p o d q, s = p ++ litUsers ++ o ++ litPl ++ d ++ q ∧
    o ≠ [] ∧ (∀ c ∈ o, ownerChar c = true) ∧ d ≠ [] ∧ ∀ c ∈ d, c.isDigit = true

lemma matchUuidAt_eq_some {s u : Str} (h : matchUuidAt s = some u) :
    ∃ q, s = litUuid ++ u ++ q ∧ u ≠ [] ∧ (∀ c ∈ u, uuidTokChar c = true) ∧
      (∀ c, q.head? = some c → uuidTokChar c = false) := by
  unfold matchUuidAt at h
  by_cases hp : litUuid.isPrefixOf s
  · rw [if_pos hp] at h
    obtain ⟨r, hr⟩ := List.isPrefixOf_iff_prefix.mp hp
    simp only [← hr, List.drop_left] at h
    by_cases he : (r.takeWhile uuidTokChar).isEmpty
    · rw [if_pos he] at h; exact absurd h (by simp)
    · rw [if_neg he] at h
      obtain rfl : List.takeWhile uuidTokChar r = u := Option.some_inj.mp h
      refine ⟨r.dropWhile uuidTokChar, ?_, ?_, ?_, ?_⟩
      · rw [← hr, List.append_assoc, List.takeWhile_append_dropWhile]
      · intro hnil; rw [hnil] at he; exact he rfl
      · intro c hc; exact List.mem_takeWhile_imp hc
      · intro c hc
        have hd := List.head?_dropWhile_not uuidTokChar r
        rw [hc] at hd; exact hd
  · rw [if_neg hp] at h; exact absurd h (by simp)

lemma matchUuidAt_of_shape (t q : Str) (ht : t ≠ [])
    (hall : ∀ c ∈ t, uuidTokChar c = true) :
    ∃ u, matchUuidAt (litUuid ++ t ++ q) = some u := by
  unfold matchUuidAt
  rw [if_pos (List.isPrefixOf_iff_prefix.mpr (by rw [List.append_assoc]; exact List.prefix_append _ _))]
  rw [List.append_assoc, List.drop_left]
  rw [List.takeWhile_append_of_pos hall]
  have hne : ¬(t ++ List.takeWhile uuidTokChar q).isEmpty := by
    cases t with
    | nil => exact absurd rfl ht
    | cons c cs => simp
  rw [if_neg hne]
  exact ⟨_, rfl⟩

lemma searchUuid_isSome_of_suffix {rest : Str} (p : Str) {u : Str}
    (h : matchUuidAt rest = some u) : (searchUuid (p ++ rest)).isSome := by
  induction p with
  | nil =>
    cases rest with
    | nil => simp [matchUuidAt, litUuid] at h
    | cons c cs => simp only [List.nil_append, searchUuid, h]; rfl
  | cons a p ih =>
    simp only [List.cons_append, searchUuid]
    cases hm : matchUuidAt (a :: (p ++ rest)) with
    | some t => rfl
    | none => exact ih

lemma searchUuid_eq_some {s u : Str} (h : searchUuid s = some u) :
    IsUuidMatch s u := by
  induction s with
  | nil => simp [searchUuid] at h
  | cons c cs ih =>
    rw [searchUuid] at h
    cases hm : matchUuidAt (c :: cs) with
    | some t =>
      rw [hm] at h
      obtain rfl : t = u := Option.some_inj.mp h
      obtain ⟨q, hs, hne, hall, hq⟩ := matchUuidAt_eq_some hm
      exact ⟨[], q, by rw [List.nil_append]; exact hs, hne, hall, hq⟩
    | none =>
      rw [hm] at h
      obtain ⟨p, q, hs, hne, hall, hq⟩ := ih h
      exact ⟨c :: p, q, by rw [hs]; rfl, hne, hall, hq⟩

lemma searchUuid_isSome_of_contains {s : Str} (h : ContainsUuid s) :
    (searchUuid s).isSome := by
  obtain ⟨p, t, q, hs, hne, hall⟩ := h
  obtain ⟨u, hm⟩ := matchUuidAt_of_shape t q hne hall
  rw [List.append_assoc] at hm
  have hs2 : s = p ++ (litUuid ++ (t ++ q)) := by rw [hs]; simp [List.append_assoc]
  rw [hs2]
  exact searchUuid_isSome_of_suffix p hm

lemma containsUuid_of_isSome {s : Str} (h : (searchUuid s).isSome) :
    ContainsUuid s := by
  cases hu : searchUuid s with
  | none => rw [hu] at h; exact absurd h (by simp)
  | some u =>
    obtain ⟨p, q, hs, hne, hall, _⟩ := searchUuid_eq_some hu
    exact ⟨p, u, q, hs, hne, hall⟩

lemma searchUuid_eq_none_iff {s : Str} :
    searchUuid s = none ↔ ¬ContainsUuid s := by
  constructor
  · intro hn hc
    have := searchUuid_isSome_of_contains hc
    rw [hn] at this; exact absurd this (by simp)
  · intro hc
    cases hu : searchUuid s with
    | none => rfl
    | some u => exact absurd (containsUuid_of_isSome (by rw [hu]; rfl)) hc

lemma takeWhile_litPl_append (x : Str) :
    (litPl ++ x).takeWhile ownerChar = [] := by
  have he : litPl ++ x = '/' :: ("playlists/".toList ++ x) := rfl
  rw [he, List.takeWhile_cons_of_neg]; decide

lemma dropWhile_litPl_append (x : Str) :
    (litPl ++ x).dropWhile ownerChar = litPl ++ x := by
  have he : litPl ++ x = '/' :: ("playlists/".toList ++ x) := rfl
  rw [he, List.dropWhile_cons_of_neg]; decide

lemma matchUserAt_eq_some {s o d : Str} (h : matchUserAt s = some (o, d)) :
    ∃ q, s = litUsers ++ o ++ litPl ++ d ++ q ∧
      o ≠ [] ∧ (∀ c ∈ o, ownerChar c = true) ∧
      d ≠ [] ∧ (∀ c ∈ d, c.isDigit = true) ∧
      (∀ c, q.head? = some c → c.isDigit = false) := by
  unfold matchUserAt at h
  by_cases hp : litUsers.isPrefixOf s
  · rw [if_pos hp] at h
    obtain ⟨r, hr⟩ := List.isPrefixOf_iff_prefix.mp hp
    simp only [← hr, List.drop_left] at h
    by_cases ho : (r.takeWhile ownerChar).isEmpty
    · rw [if_pos ho] at h; exact absurd h (by simp)
    · rw [if_neg ho] at h
      by_cases hp2 : litPl.isPrefixOf (r.dropWhile ownerChar)
      · rw [if_pos hp2] at h
        obtain ⟨r3, hr3⟩ := List.isPrefixOf_iff_prefix.mp hp2
        simp only [← hr3, List.drop_left] at h
        by_cases hd : (r3.takeWhile Char.isDigit).isEmpty
        · rw [if_pos hd] at h; exact absurd h (by simp)
        · rw [if_neg hd] at h
          have hpair := Option.some_inj.mp h
          obtain ⟨h1, h2⟩ := Prod.ext_iff.mp hpair
          obtain rfl : r.takeWhile ownerChar = o := h1
          obtain rfl : r3.takeWhile Char.isDigit = d := h2
          refine ⟨r3.dropWhile Char.isDigit, ?_, ?_, ?_, ?_, ?_, ?_⟩
          · rw [← hr]
            simp only [List.append_assoc]
            congr 1
            rw [List.takeWhile_append_dropWhile Char.isDigit r3, hr3,
              List.takeWhile_append_dropWhile]
          · intro hnil; rw [hnil] at ho; exact ho rfl
          · intro c hc; exact List.mem_takeWhile_imp hc
          · intro hnil; rw [hnil] at hd; exact hd rfl
          · intro c hc; exact List.mem_takeWhile_imp hc
          · intro c hc
            have hdd := List.head?_dropWhile_not Char.isDigit r3
            rw [hc] at hdd; exact hdd
      · rw [if_neg hp2] at h; exact absurd h (by simp)
  · rw [if_neg hp] at h; exact absurd h (by simp)

lemma matchUserAt_of_shape (o d q : Str) (ho : o ≠ [])
    (hoc : ∀ c ∈ o, ownerChar c = true) (hd : d ≠ [])
    (hdc : ∀ c ∈ d, c.isDigit = true) :
    ∃ o2 d2, matchUserAt (litUsers ++ (o ++ (litPl ++ (d ++ q)))) = some (o2, d2) := by
  have hpre1 : litUsers.isPrefixOf (litUsers ++ (o ++ (litPl ++ (d ++ q)))) = true :=
    List.isPrefixOf_iff_prefix.mpr (List.prefix_append _ _)
  have ho2 : o.isEmpty = false := by
    cases o with
    | nil => exact absurd rfl ho
    | cons c cs => rfl
  have hd2 : (d ++ q.takeWhile Char.isDigit).isEmpty = false := by
    cases d with
    | nil => exact absurd rfl hd
    | cons c cs => rfl
  have hpre2 : litPl.isPrefixOf (litPl ++ (d ++ q)) = true :=
    List.isPrefixOf_iff_prefix.mpr (List.prefix_append _ _)
  refine ⟨o, d ++ q.takeWhile Char.isDigit, ?_⟩
  unfold matchUserAt
  simp only [hpre1, if_true, List.drop_left,
    List.takeWhile_append_of_pos hoc, takeWhile_litPl_append, List.append_nil,
    ho2, List.dropWhile_append_of_pos hoc, dropWhile_litPl_append,
    hpre2, List.takeWhile_append_of_pos hdc, hd2]
  simp

lemma searchUser_isSome_of_suffix {rest : Str} (p : Str) {o d : Str}
    (h : matchUserAt rest = some (o, d)) : (searchUser (p ++ rest)).isSome := by
  induction p with
  | nil =>
    cases rest with
    | nil => simp [matchUserAt, litUsers] at h
    | cons c cs => simp only [List.nil_append, searchUser, h]; rfl
  | cons a p ih =>
    simp only [List.cons_append, searchUser]
    cases hm : matchUserAt (a :: (p ++ rest)) with
    | some t => rfl
    | none => exact ih

lemma searchUser_eq_some {s o d : Str} (h : searchUser s = some (o, d)) :
    IsUserMatch s o d := by
  induction s with
  | nil => simp [searchUser] at h
  | cons c cs ih =>
    rw [searchUser] at h
    cases hm : matchUserAt (c :: cs) with
    | some t =>
      rw [hm] at h
      obtain rfl : t = (o, d) := Option.some_inj.mp h
      obtain ⟨q, hs, h1, h2, h3, h4, h5⟩ := matchUserAt_eq_some hm
      exact ⟨[], q, by rw [List.nil_append]; exact hs, h1, h2, h3, h4, h5⟩
    | none =>
      rw [hm] at h
      obtain ⟨p, q, hs, h1, h2, h3, h4, h5⟩ := ih h
      exact ⟨c :: p, q, by rw [hs]; rfl, h1, h2, h3, h4, h5⟩

lemma searchUser_isSome_of_contains {s : Str} (h : ContainsUser s) :
    (searchUser s).isSome := by
  obtain ⟨p, o, d, q, hs, ho, hoc, hd, hdc⟩ := h
  obtain ⟨o2, d2, hm⟩ := matchUserAt_of_shape o d q ho hoc hd hdc
  have hs2 : s = p ++ (litUsers ++ (o ++ (litPl ++ (d ++ q)))) := by
    rw [hs]; simp [List.append_assoc]
  rw [hs2]
  exact searchUser_isSome_of_suffix p hm

lemma containsUser_of_isSome {s : Str} (h : (searchUser s).isSome) :
    ContainsUser s := by
  cases hu : searchUser s with
  | none => rw [hu] at h; exact absurd h (by simp)
  | some od =>
    obtain ⟨o, d⟩ := od
    obtain ⟨p, q, hs, h1, h2, h3, h4, _⟩ := searchUser_eq_some hu
    exact ⟨p, o, d, q, hs, h1, h2, h3, h4⟩

lemma searchUser_eq_none_iff {s : Str} :
    searchUser s = none ↔ ¬ContainsUser s := by
  constructor
  · intro hn hc
    have := searchUser_isSome_of_contains hc
    rw [hn] at this; exact absurd this (by simp)
  · intro hc
    cases hu : searchUser s with
    | none => rfl
    | some od => exact absurd (containsUser_of_isSome (by rw [hu]; rfl)) hc

/-- C1: a string containing `music.yandex.ru/playlists/<token>` (token a
non-empty run excluding `/` and `?`) parses to a `ByUuid` reference whose
uuid is the matched token; a string without that shape but containing
`music.yandex.ru/users/<owner>/playlists/<digits>` parses to the
corresponding `ByOwner` reference; every other string fails with the
invalid-reference `ValueError`; the uuid pattern is checked first. -/
theorem parse_playlist_url_spec (s : Str) :
    (ContainsUuid s →
      ∃ u, parse_playlist_url s = .ok (.byUuid u) ∧ IsUuidMatch s u) ∧
    (¬ContainsUuid s → ContainsUser s →
      ∃ o d, parse_playlist_url s = .ok (.byOwner o d) ∧ IsUserMatch s o d) ∧
    (¬ContainsUuid s → ¬ContainsUser s →
      parse_playlist_url s = .error invalidRefMsg) := by
  refine ⟨?_, ?_, ?_⟩
  · intro hc
    have hs := searchUuid_isSome_of_contains hc
    cases hu : searchUuid s with
    | none => rw [hu] at hs; exact absurd hs (by simp)
    | some u =>
      refine ⟨u, ?_, searchUuid_eq_some hu⟩
      unfold parse_playlist_url
      rw [hu]
  · intro hnu hcu
    have h1 : searchUuid s = none := searchUuid_eq_none_iff.mpr hnu
    have hs := searchUser_isSome_of_contains hcu
    cases hu : searchUser s with
    | none => rw [hu] at hs; exact absurd hs (by simp)
    | some od =>
      obtain ⟨o, d⟩ := od
      refine ⟨o, d, ?_, searchUser_eq_some hu⟩
      unfold parse_playlist_url
      rw [h1, hu]
  · intro hnu hnus
    unfold parse_playlist_url
    rw [searchUuid_eq_none_iff.mpr hnu, searchUser_eq_none_iff.mpr hnus]

/-- Witness for C1: the three branches at concrete inputs. -/
theorem parse_playlist_url_spec_witness :
    (∃ u, parse_playlist_url "https://music.yandex.ru/playlists/abc12".toList
        = .ok (.byUuid u) ∧
      IsUuidMatch "https://music.yandex.ru/playlists/abc12".toList u) ∧
    (∃ o d, parse_playlist_url "https://music.yandex.ru/users/bob/playlists/1000".toList
        = .ok (.byOwner o d) ∧
      IsUserMatch "https://music.yandex.ru/users/bob/playlists/1000".toList o d) ∧
    parse_playlist_url "hello".toList = .error invalidRefMsg := by
  refine ⟨?_, ?_, ?_⟩
  · exact (parse_playlist_url_spec _).1
      ⟨"https://".toList, "abc12".toList, [], by decide, by decide, by decide⟩
  · exact (parse_playlist_url_spec _).2.1
      (searchUuid_eq_none_iff.mp (by decide))
      ⟨"https://".toList, "bob".toList, "1000".toList, [], by decide, by decide,
        by decide, by decide⟩
  · exact (parse_playlist_url_spec _).2.2
      (searchUuid_eq_none_iff.mp (by decide))
      (searchUser_eq_none_iff.mp (by decide))

/-! ### Retry wrapper correctness (claims C5, C9) -/

/-- The backoff sleeps performed after the attempts numbered `attempt`,
`attempt+1`, …, `attempt+k-1` (0-indexed): the sleep after 0-indexed
attempt `i` is `delay * (i + 1)`. -/
def sleepList (d : ℚ) (attempt k : Nat) : List ℚ :=
  (List.range k).map (fun j => d * ((attempt + j + 1 : ℕ) : ℚ))

lemma sleepList_zero (d : ℚ) (attempt : Nat) : sleepList d attempt 0 = [] := rfl

lemma sleepList_succ (d : ℚ) (attempt k : Nat) :
    sleepList d attempt (k + 1) =
      d * ((attempt + 1 : ℕ) : ℚ) :: sleepList d (attempt + 1) k := by
  unfold sleepList
  rw [List.range_succ_eq_map, List.map_cons, List.map_map]
  refine congrArg₂ _ (by norm_num) ?_
  refine List.map_congr_left (fun j _ => ?_)
  simp only [Function.comp]
  congr 2
  omega

lemma retry_go_first_ok {E A : Type} (d : ℚ) (f : Nat → Except E A) :
    ∀ (k : Nat) (attempt remaining : Nat) (a : A), k < remaining →
      (∀ j, j < k → ∃ e, f (attempt + j) = .error e) →
      f (attempt + k) = .ok a →
      retry_go d f attempt remaining =
        (.ok (some a), sleepList d attempt k, k + 1) := by
  intro k
  induction k with
  | zero =>
    intro attempt remaining a hk hfail hok
    obtain ⟨r, rfl⟩ := Nat.exists_eq_add_of_lt hk
    rw [Nat.add_zero] at hok
    simp [Nat.zero_add, retry_go, hok, sleepList]
  | succ k ih =>
    intro attempt remaining a hk hfail hok
    obtain ⟨r, rfl⟩ := Nat.exists_eq_add_of_lt hk
    obtain ⟨e0, he0⟩ := hfail 0 (Nat.succ_pos k)
    rw [Nat.add_zero] at he0
    have hr : ¬(k + 1 + r = 0) := by omega
    have hrec := ih (attempt + 1) (k + 1 + r) a (by omega)
      (fun j hj => by
        have h2 := hfail (j + 1) (by omega)
        have he : attempt + (j + 1) = attempt + 1 + j := by omega
        rwa [he] at h2)
      (by rw [← hok]; congr 1; omega)
    rw [retry_go]
    simp only [he0, if_neg hr]
    rw [hrec, sleepList_succ]
    push_cast
    try rfl

lemma retry_go_all_fail {E A : Type} (d : ℚ) (f : Nat → Except E A) :
    ∀ (remaining attempt : Nat) (e : E), 1 ≤ remaining →
      (∀ j, j < remaining → ∃ ej, f (attempt + j) = .error ej) →
      f (attempt + (remaining - 1)) = .error e →
      retry_go d f attempt remaining =
        (.error e, sleepList d attempt (remaining - 1), remaining) := by
  intro remaining
  induction remaining with
  | zero => intro attempt e h; omega
  | succ r ih =>
    intro attempt e _ hfail hlast
    cases r with
    | zero =>
      rw [Nat.add_zero] at hlast
      simp [retry_go, hlast, sleepList]
    | succ r2 =>
      obtain ⟨e0, he0⟩ := hfail 0 (Nat.succ_pos _)
      rw [Nat.add_zero] at he0
      have hr : ¬(r2 + 1 = 0) := by omega
      have hrec := ih (attempt + 1) e (Nat.succ_pos r2)
        (fun j hj => by
          have h2 := hfail (j + 1) (by omega)
          have he : attempt + (j + 1) = attempt + 1 + j := by omega
          rwa [he] at h2)
        (by rw [← hlast]; congr 1; omega)
      have hs : sleepList d attempt (r2 + 1 + 1 - 1) =
          d * ((attempt + 1 : ℕ) : ℚ) :: sleepList d (attempt + 1) (r2 + 1 - 1) := by
        simp only [Nat.add_sub_cancel]
        exact sleepList_succ d attempt r2
      rw [retry_go]
      simp only [he0, if_neg hr]
      rw [hrec, hs]
      push_cast
      try rfl

/-- C5: the retry wrapper returns the value of the first successful
invocation, having made `k+1` calls and slept `delay*(j+1)` after the
`j`-th failed attempt (0-indexed; equivalently `delay × k` after the `k`-th
1-indexed failed attempt); if all `N` attempts raise, the exception raised
by the final attempt is re-raised after `N` calls, with a sleep after every
attempt but the last. -/
theorem retry_on_error_spec {E A : Type} (N : ℕ) (hN : 1 ≤ N) (d : ℚ)
    (f : ℕ → Except E A) :
    (∀ k a, k < N → (∀ j, j < k → ∃ e, f j = .error e) → f k = .ok a →
      retry_on_error N d f = (.ok (some a), sleepList d 0 k, k + 1)) ∧
    (∀ e, (∀ j, j < N → ∃ ej, f j = .error ej) → f (N - 1) = .error e →
      retry_on_error N d f = (.error e, sleepList d 0 (N - 1), N)) := by
  constructor
  · intro k a hk hfail hok
    exact retry_go_first_ok d f k 0 N a hk
      (fun j hj => by simpa using hfail j hj) (by simpa using hok)
  · intro e hfail hlast
    exact retry_go_all_fail d f N 0 e hN
      (fun j hj => by simpa using hfail j hj) (by simpa using hlast)

/-- Witness for C5: a callable failing once then succeeding under
`retry_on_error(3, 1/2)`, and one that always fails under
`retry_on_error(2, 1)`. -/
theorem retry_on_error_spec_witness :
    retry_on_error 3 (1 / 2)
        (fun j => if j = 0 then Except.error "e1".toList else .ok (5 : Nat)) =
      (.ok (some 5), sleepList (1 / 2) 0 1, 2) ∧
    retry_on_error 2 1 (fun _ => (Except.error "b".toList : Except Str Nat)) =
      (.error "b".toList, sleepList 1 0 1, 2) := by
  constructor
  · refine (retry_on_error_spec 3 (by decide) (1 / 2) _).1 1 5 (by decide) ?_ rfl
    intro j hj
    rcases Nat.lt_one_iff.mp hj with rfl
    exact ⟨"e1".toList, rfl⟩
  · refine (retry_on_error_spec 2 (by decide) 1 _).2 "b".toList ?_ rfl
    intro j _
    exact ⟨"b".toList, rfl⟩

/-! ### Dictionary construction (claim C7) -/

lemma dictKeys_dictInsert_of_mem {m : List (Str × Track)} {k : Str} (v : Track)
    (h : m.any (fun p => p.1 == k) = true) :
    dictKeys (dictInsert m k v) = dictKeys m := by
  unfold dictInsert dictKeys
  rw [if_pos h, List.map_map]
  refine List.map_congr_left (fun p _ => ?_)
  simp only [Function.comp]
  by_cases hp : p.1 == k
  · rw [if_pos hp]; exact (beq_iff_eq.mp hp).symm
  · rw [if_neg hp]

lemma dictKeys_dictInsert_of_not_mem {m : List (Str × Track)} {k : Str} (v : Track)
    (h : ¬(m.any (fun p => p.1 == k) = true)) :
    dictKeys (dictInsert m k v) = dictKeys m ++ [k] := by
  unfold dictInsert dictKeys
  rw [if_neg h, List.map_append]
  rfl

lemma mem_dictKeys_iff_any {m : List (Str × Track)} {k : Str} :
    k ∈ dictKeys m ↔ m.any (fun p => p.1 == k) = true := by
  unfold dictKeys
  rw [List.any_eq_true, List.mem_map]
  constructor
  · rintro ⟨p, hp, rfl⟩; exact ⟨p, hp, beq_iff_eq.mpr rfl⟩
  · rintro ⟨p, hp, hk⟩; exact ⟨p, hp, beq_iff_eq.mp hk⟩

lemma find?_key_cons_pos {k : Str} {p : Str × Track} {m : List (Str × Track)}
    (h : p.1 = k) : (p :: m).find? (fun q => q.1 == k) = some p := by
  rw [List.find?_cons]
  simp [h]

lemma find?_key_cons_neg {k : Str} {p : Str × Track} {m : List (Str × Track)}
    (h : ¬p.1 = k) :
    (p :: m).find? (fun q => q.1 == k) = m.find? (fun q => q.1 == k) := by
  have hb : (p.1 == k) = false := beq_eq_false_iff_ne.mpr h
  rw [List.find?_cons, hb]

lemma dictGet_dictInsert_self (m : List (Str × Track)) (k : Str) (v : Track) :
    dictGet (dictInsert m k v) k = some v := by
  unfold dictInsert dictGet
  by_cases h : m.any (fun p => p.1 == k) = true
  · rw [if_pos h]
    induction m with
    | nil => simp at h
    | cons p m ih =>
      simp only [List.any_cons, Bool.or_eq_true] at h
      by_cases hp : (p.1 == k) = true
      · simp only [List.map_cons, if_pos hp]
        rw [@find?_key_cons_pos k (k, v) _ rfl]
        rfl
      · rcases h with h | h
        · exact absurd h hp
        · simp only [List.map_cons, if_neg hp]
          rw [find?_key_cons_neg (by simpa using hp)]
          exact ih h
  · rw [if_neg h, List.find?_append]
    have h2 : m.find? (fun p => p.1 == k) = none := by
      rw [List.find?_eq_none]
      intro p hp hkp
      exact h (List.any_eq_true.mpr ⟨p, hp, hkp⟩)
    rw [h2]
    simp

lemma dictGet_dictInsert_ne (m : List (Str × Track)) {k k' : Str} (v : Track)
    (h : k' ≠ k) : dictGet (dictInsert m k v) k' = dictGet m k' := by
  unfold dictInsert dictGet
  by_cases hm : m.any (fun p => p.1 == k) = true
  · rw [if_pos hm]
    clear hm
    induction m with
    | nil => rfl
    | cons p m ih =>
      by_cases hp : (p.1 == k) = true
      · have hpk : p.1 = k := beq_iff_eq.mp hp
        simp only [List.map_cons, if_pos hp]
        rw [find?_key_cons_neg (fun hx => h hx.symm),
          find?_key_cons_neg (by rw [hpk]; exact fun hx => h hx.symm)]
        exact ih
      · simp only [List.map_cons, if_neg hp]
        by_cases hp' : p.1 = k'
        · rw [find?_key_cons_pos hp', find?_key_cons_pos hp']
        · rw [find?_key_cons_neg hp', find?_key_cons_neg hp']
          exact ih
  · rw [if_neg hm, List.find?_append]
    rw [find?_key_cons_neg (fun hx => h hx.symm)]
    simp

lemma build_tracks_dict_concat (ts : List Track) (t : Track) :
    build_tracks_dict (ts ++ [t]) =
      match get_track_id t with
      | some k => dictInsert (build_tracks_dict ts) k t
      | none => build_tracks_dict ts := by
  unfold build_tracks_dict
  rw [List.foldl_append]
  rfl

lemma mem_dictKeys_iff_isSome (m : List (Str × Track)) (k : Str) :
    k ∈ dictKeys m ↔ (dictGet m k).isSome := by
  rw [mem_dictKeys_iff_any]
  unfold dictGet
  rw [Option.isSome_map', List.find?_isSome, List.any_eq_true]

lemma build_tracks_dict_lookup (tracks : List Track) (k : Str) :
    dictGet (build_tracks_dict tracks) k =
      (tracks.filter (fun t => get_track_id t == some k)).getLast? := by
  induction tracks using List.reverseRecOn with
  | nil => rfl
  | append_singleton ts t ih =>
    rw [build_tracks_dict_concat]
    cases hid : get_track_id t with
    | none =>
      have hf : (get_track_id t == some k) = false :=
        beq_eq_false_iff_ne.mpr (by rw [hid]; exact fun h => Option.noConfusion h)
      rw [List.filter_append]
      simpa [List.filter_cons, hf] using ih
    | some k0 =>
      by_cases hk : k = k0
      · subst hk
        have hf : (get_track_id t == some k) = true := by rw [hid]; exact beq_self_eq_true _
        rw [List.filter_append, List.getLast?_append]
        simp only [List.filter_cons, hf, if_true, List.filter_nil,
          List.getLast?_singleton]
        exact dictGet_dictInsert_self _ _ _
      · have hf : (get_track_id t == some k) = false :=
          beq_eq_false_iff_ne.mpr
            (by rw [hid]; intro hc; exact hk (Option.some_inj.mp hc).symm)
        rw [dictGet_dictInsert_ne _ _ hk, List.filter_append]
        simpa [List.filter_cons, hf] using ih

lemma build_tracks_dict_keys_nodup (tracks : List Track) :
    (dictKeys (build_tracks_dict tracks)).Nodup := by
  induction tracks using List.reverseRecOn with
  | nil => exact List.nodup_nil
  | append_singleton ts t ih =>
    rw [build_tracks_dict_concat]
    cases hid : get_track_id t with
    | none => exact ih
    | some k0 =>
      by_cases hm : (build_tracks_dict ts).any (fun p => p.1 == k0) = true
      · rw [dictKeys_dictInsert_of_mem t hm]
        exact ih
      · rw [dictKeys_dictInsert_of_not_mem t hm, List.nodup_append]
        refine ⟨ih, List.nodup_singleton _, fun a ha hb => ?_⟩
        rw [List.mem_singleton] at hb
        subst hb
        exact hm (mem_dictKeys_iff_any.mp ha)

/-- C7: the per-playlist dictionary built by `process_playlist` has
duplicate-free keys; a key is present exactly when some raw entry's
identifier extraction yields it (entries with an absent identifier are
excluded); and each key is bound to the LAST entry of the sequence carrying
that identifier (last-seen wins). -/
theorem process_playlist_dict_spec (tracks : List Track) :
    (dictKeys (build_tracks_dict tracks)).Nodup ∧
    (∀ k, dictGet (build_tracks_dict tracks) k =
      (tracks.filter (fun t => get_track_id t == some k)).getLast?) ∧
    (∀ k, k ∈ dictKeys (build_tracks_dict tracks) ↔
      ∃ t ∈ tracks, get_track_id t = some k) := by
  refine ⟨build_tracks_dict_keys_nodup tracks, build_tracks_dict_lookup tracks, ?_⟩
  intro k
  rw [mem_dictKeys_iff_isSome, build_tracks_dict_lookup, List.getLast?_isSome]
  constructor
  · intro hne
    by_contra hnone
    push_neg at hnone
    refine hne (List.filter_eq_nil_iff.mpr (fun t ht => ?_))
    simp only [beq_iff_eq]
    exact fun hc => hnone t ht hc
  · rintro ⟨t, ht, hid⟩ hnil
    have := List.filter_eq_nil_iff.mp hnil t ht
    simp only [beq_iff_eq] at this
    exact this hid

/-! ### Comparator correctness (claim C2) -/

lemma strLe_cons_iff {a b : Char} {as bs : Str} :
    strLe (a :: as) (b :: bs) = true ↔ a < b ∨ (a = b ∧ strLe as bs = true) := by
  rw [strLe]
  by_cases h : a < b
  · simp [h]
  · by_cases h2 : a = b <;> simp [h, h2]

lemma strLe_refl : ∀ (a : Str), strLe a a = true
  | [] => rfl
  | _ :: cs => strLe_cons_iff.mpr (Or.inr ⟨rfl, strLe_refl cs⟩)

lemma strLe_total : ∀ (a b : Str), strLe a b = true ∨ strLe b a = true
  | [], _ => Or.inl rfl
  | _ :: _, [] => Or.inr rfl
  | a :: as, b :: bs => by
    rcases lt_trichotomy a b with h | h | h
    · exact Or.inl (strLe_cons_iff.mpr (Or.inl h))
    · rcases strLe_total as bs with h2 | h2
      · exact Or.inl (strLe_cons_iff.mpr (Or.inr ⟨h, h2⟩))
      · exact Or.inr (strLe_cons_iff.mpr (Or.inr ⟨h.symm, h2⟩))
    · exact Or.inr (strLe_cons_iff.mpr (Or.inl h))

lemma strLe_trans : ∀ (a b c : Str), strLe a b = true → strLe b c = true →
    strLe a c = true
  | [], _, _, _, _ => rfl
  | _ :: _, [], _, h, _ => by rw [strLe] at h; exact absurd h (by simp)
  | _ :: _, _ :: _, [], _, h => by rw [strLe] at h; exact absurd h (by simp)
  | a :: as, b :: bs, c :: cs, h1, h2 => by
    rcases strLe_cons_iff.mp h1 with hab | ⟨hab, hr1⟩
    · rcases strLe_cons_iff.mp h2 with hbc | ⟨hbc, _⟩
      · exact strLe_cons_iff.mpr (Or.inl (lt_trans hab hbc))
      · exact strLe_cons_iff.mpr (Or.inl (hbc ▸ hab))
    · rcases strLe_cons_iff.mp h2 with hbc | ⟨hbc, hr2⟩
      · exact strLe_cons_iff.mpr (Or.inl (hab ▸ hbc))
      · exact strLe_cons_iff.mpr (Or.inr ⟨hab.trans hbc, strLe_trans as bs cs hr1 hr2⟩)

instance : IsTotal TrackInfo trackLe :=
  ⟨fun a b => strLe_total (lowerStr a.title) (lowerStr b.title)⟩

instance : IsTrans TrackInfo trackLe :=
  ⟨fun a b c => strLe_trans (lowerStr a.title) (lowerStr b.title) (lowerStr c.title)⟩

lemma get_track_info_id {t : Track} {info : TrackInfo}
    (h : get_track_info t = some info) : get_track_id t = some info.id := by
  unfold get_track_info get_track_info_inner at h
  cases hid : get_track_id t with
  | none =>
    rw [hid] at h
    exact absurd h (by simp)
  | some tid =>
    simp only [hid] at h
    cases hA : resolveArtistsStr (resolveArtistsList (fetchStep t)) with
    | error e =>
      simp only [hA] at h
      exact absurd h (by simp)
    | ok s =>
      simp only [hA] at h
      obtain rfl := Option.some_inj.mp h
      rfl

lemma dictGet_build_id (ts : List Track) {k : Str} {v : Track}
    (h : dictGet (build_tracks_dict ts) k = some v) : get_track_id v = some k := by
  rw [build_tracks_dict_lookup] at h
  have hv := List.mem_of_getLast?_eq_some h
  have := List.of_mem_filter hv
  exact beq_iff_eq.mp this

lemma collect_common_map_id (d1 : List (Str × Track))
    (hinv : ∀ k v, dictGet d1 k = some v → get_track_id v = some k)
    (order : List Str) :
    (collect_common d1 order).map (fun i => i.id) =
      order.filter (fun tid => ((dictGet d1 tid).bind get_track_info).isSome) := by
  induction order with
  | nil => rfl
  | cons tid rest ih =>
    unfold collect_common at ih ⊢
    rw [List.filterMap_cons, List.filter_cons]
    cases hg : (dictGet d1 tid).bind get_track_info with
    | none =>
      simpa using ih
    | some info =>
      simp only [Option.isSome_some, if_true, List.map_cons]
      have hid : info.id = tid := by
        cases hd : dictGet d1 tid with
        | none => rw [hd] at hg; exact absurd hg (by simp)
        | some v =>
          rw [hd] at hg
          simp only [Option.some_bind] at hg
          have h1 := get_track_info_id hg
          have h2 := hinv tid v hd
          rw [h1] at h2
          exact Option.some_inj.mp h2
      rw [hid, ih]

/-- A raw entry with only a direct `id` and a direct `title`, as in the
spec's worked example. -/
def exTrack (i ttl : Str) : Track :=
  .mk (some i) none none (some ttl) none none none none none

def exListA : List Track :=
  [exTrack "5".toList "Banana".toList, exTrack "9".toList "apple".toList,
   exTrack "2".toList "Cherry".toList]

def exListB : List Track :=
  [exTrack "2".toList "Cherry".toList, exTrack "9".toList "apple".toList,
   exTrack "5".toList "Banana".toList]

/-- C2: for any two entry sequences and any enumeration `order` of the
intersection set of their dictionaries' keys, the comparator output is
sorted ascending by lowercased title and repeats no identifier; on the
spec's worked example (shared identifiers 5, 9, 2 with titles Banana,
apple, Cherry) the output titles are apple, Banana, Cherry. -/
theorem compare_entries_spec :
    (∀ (t1 t2 : List Track) (order : List Str),
      order.Perm (common_ids (build_tracks_dict t1) (build_tracks_dict t2)) →
      List.Pairwise trackLe (compare_entries (build_tracks_dict t1) order) ∧
      ((compare_entries (build_tracks_dict t1) order).map (fun i => i.id)).Nodup) ∧
    (compare_entries (build_tracks_dict exListA)
        (common_ids (build_tracks_dict exListA) (build_tracks_dict exListB))).map
      (fun i => i.title) =
      ["apple".toList, "Banana".toList, "Cherry".toList] := by
  constructor
  · intro t1 t2 order hperm
    constructor
    · exact List.sorted_insertionSort trackLe _
    · have hcommon : (common_ids (build_tracks_dict t1) (build_tracks_dict t2)).Nodup :=
        (build_tracks_dict_keys_nodup t1).filter _
      have hnodupOrder : order.Nodup := hperm.symm.nodup hcommon
      have hmap := collect_common_map_id (build_tracks_dict t1)
        (fun k v h => dictGet_build_id t1 h) order
      have hc : ((collect_common (build_tracks_dict t1) order).map
          (fun i => i.id)).Nodup := by
        rw [hmap]; exact hnodupOrder.filter _
      unfold compare_entries
      have hp2 : List.Perm
          ((List.insertionSort trackLe
            (collect_common (build_tracks_dict t1) order)).map (fun i => i.id))
          ((collect_common (build_tracks_dict t1) order).map (fun i => i.id)) :=
        (List.perm_insertionSort trackLe _).map _
      exact hp2.symm.nodup hc
  · decide

/-- Witness for C2: the general part applied to the worked example with the
canonical enumeration order of the intersection. -/
theorem compare_entries_spec_witness :
    List.Pairwise trackLe (compare_entries (build_tracks_dict exListA)
      (common_ids (build_tracks_dict exListA) (build_tracks_dict exListB))) ∧
    ((compare_entries (build_tracks_dict exListA)
        (common_ids (build_tracks_dict exListA) (build_tracks_dict exListB))).map
      (fun i => i.id)).Nodup :=
  compare_entries_spec.1 exListA exListB _ (List.Perm.refl _)

/-! ### Request-level error handling (claims C3, C8, C10) -/

/-- Success test of a modelled fallible computation. -/
def exceptOk {α : Type} : Except Str α → Bool
  | .ok _ => true
  | .error _ => false

/-- C3: `process_playlists_async` never propagates a failure: either every
upstream stage (both parses, both fetches) succeeds and the `error` field is
null, or the result is exactly the empty list together with a non-null
error message. -/
theorem process_playlists_async_error_spec
    (fetch : PlaylistRef → Except Str (List Track)) (firstDone1 : Bool)
    (setOrder : List Str → List Str) (url1 url2 : Str) :
    ((exceptOk (parse_playlist_url url1) = true ∧
      exceptOk (parse_playlist_url url2) = true ∧
      (∀ p, parse_playlist_url url1 = .ok p → exceptOk (fetch p) = true) ∧
      (∀ p, parse_playlist_url url2 = .ok p → exceptOk (fetch p) = true) ∧
      (process_playlists_async fetch firstDone1 setOrder url1 url2).error = none) ∨
     ((process_playlists_async fetch firstDone1 setOrder url1 url2).common_tracks = [] ∧
      ∃ m, (process_playlists_async fetch firstDone1 setOrder url1 url2).error
        = some m)) := by
  unfold process_playlists_async
  cases h1 : parse_playlist_url url1 with
  | error e => exact Or.inr ⟨rfl, e, rfl⟩
  | ok p1 =>
    cases h2 : parse_playlist_url url2 with
    | error e => exact Or.inr ⟨rfl, e, rfl⟩
    | ok p2 =>
      dsimp only
      unfold process_playlist
      cases h3 : fetch p1 with
      | error e1 =>
        cases h4 : fetch p2 with
        | error e2 => exact Or.inr ⟨rfl, _, rfl⟩
        | ok t2 => exact Or.inr ⟨rfl, e1, rfl⟩
      | ok t1 =>
        cases h4 : fetch p2 with
        | error e2 => exact Or.inr ⟨rfl, e2, rfl⟩
        | ok t2 =>
          refine Or.inl ⟨rfl, rfl, ?_, ?_, rfl⟩
          · intro p hp
            obtain rfl := Except.ok.inj hp
            rw [h3]; rfl
          · intro p hp
            obtain rfl := Except.ok.inj hp
            rw [h4]; rfl

/-- Witness for C3: the dichotomy at a concrete request whose fetch fails. -/
theorem process_playlists_async_error_spec_witness :
    ((exceptOk (parse_playlist_url "music.yandex.ru/playlists/A".toList) = true ∧
      exceptOk (parse_playlist_url "music.yandex.ru/playlists/B".toList) = true ∧
      (∀ p, parse_playlist_url "music.yandex.ru/playlists/A".toList = .ok p →
        exceptOk ((fun _ => (.error "down".toList : Except Str (List Track))) p) = true) ∧
      (∀ p, parse_playlist_url "music.yandex.ru/playlists/B".toList = .ok p →
        exceptOk ((fun _ => (.error "down".toList : Except Str (List Track))) p) = true) ∧
      (process_playlists_async (fun _ => .error "down".toList) true (fun l => l)
        "music.yandex.ru/playlists/A".toList "music.yandex.ru/playlists/B".toList).error
        = none) ∨
     ((process_playlists_async (fun _ => .error "down".toList) true (fun l => l)
        "music.yandex.ru/playlists/A".toList
        "music.yandex.ru/playlists/B".toList).common_tracks = [] ∧
      ∃ m, (process_playlists_async (fun _ => .error "down".toList) true (fun l => l)
        "music.yandex.ru/playlists/A".toList
        "music.yandex.ru/playlists/B".toList).error = some m)) :=
  process_playlists_async_error_spec (fun _ => .error "down".toList) true
    (fun l => l) "music.yandex.ru/playlists/A".toList
    "music.yandex.ru/playlists/B".toList

/-! ### Completion-order dependence of the result (claim C8) -/

def exUrl1 : Str := "music.yandex.ru/playlists/A".toList

def exUrl2 : Str := "music.yandex.ru/playlists/B".toList

/-- A fetch in which the two playlists share the identifier `1` but carry
entries with different display titles. -/
def exFetch : PlaylistRef → Except Str (List Track)
  | .byUuid u =>
    if u = "A".toList then .ok [exTrack "1".toList "X".toList]
    else if u = "B".toList then .ok [exTrack "1".toList "Y".toList]
    else .error "nf".toList
  | .byOwner _ _ => .error "nf".toList

/-- C8 is violated by the code: `results` is filled in `as_completed`
(completion) order and then destructured positionally, so the entry that
feeds `get_track_info` comes from whichever fetch completed first, not from
the map of the first URL.  With playlist 2 finishing first, the common
track's displayed title is the one from playlist 2, and the overall result
differs from the run where playlist 1 finishes first. -/
theorem process_playlists_async_completion_order :
    (process_playlists_async exFetch false (fun l => l) exUrl1 exUrl2).common_tracks.map
        (fun i => i.title) = ["Y".toList] ∧
    (process_playlists_async exFetch true (fun l => l) exUrl1 exUrl2).common_tracks.map
        (fun i => i.title) = ["X".toList] ∧
    process_playlists_async exFetch false (fun l => l) exUrl1 exUrl2 ≠
      process_playlists_async exFetch true (fun l => l) exUrl1 exUrl2 := by
  decide

/-! ### UUID fetch path and the missing credential (claim C4) -/

/-- C4: with a missing (or empty, hence falsy) `YANDEX_OAUTH_TOKEN` in the
process environment, `get_tracks_by_uuid` fails with the wrapped
missing-credential `ValueError` and performs zero HTTP GET requests,
whatever the HTTP layer and the client would have answered. -/
theorem get_tracks_by_uuid_missing_token (env : Str → Option Str)
    (http : Str → UuidHttpResponse)
    (client_tracks : List Str → Except Str (List Track)) (playlist_uuid : Str)
    (h : truthyStr (env envTokenName) = false) :
    get_tracks_by_uuid env http client_tracks playlist_uuid =
      (.error (uuidWrapMsg missingTokenMsg), 0) := by
  unfold get_tracks_by_uuid
  simp only [h]
  rfl

/-- Witness for C4: an environment with no token at all. -/
theorem get_tracks_by_uuid_missing_token_witness :
    get_tracks_by_uuid (fun _ => none) (fun _ => ⟨200, []⟩) (fun _ => .ok [])
      "abc".toList = (.error (uuidWrapMsg missingTokenMsg), 0) :=
  get_tracks_by_uuid_missing_token (fun _ => none) (fun _ => ⟨200, []⟩)
    (fun _ => .ok []) "abc".toList rfl

/-! ### Fallback literals of the normalizer (claim C6) -/

/-- C6: an entry with a resolvable identifier but no title field and no
artist field in any recognized shape (direct attribute, flat name list, or
nested under `track`) normalizes to the fallback literals
`'Неизвестный трек'` / `'Неизвестный исполнитель'` (the localized
equivalents of "Unknown track" / "Unknown artist") instead of failing or
yielding `None`. -/
theorem get_track_info_fallback_literals (t : Track)
    (hid : (get_track_id t).isSome = true)
    (ht : (fetchStep t).title = none)
    (ha1 : (fetchStep t).artists = none)
    (ha2 : (fetchStep t).artists_name = none)
    (hnested : ∀ inner, (fetchStep t).track = some inner →
      inner.title = none ∧ inner.artists = none) :
    ∃ info, get_track_info t = some info ∧
      info.title = unknownTrackLit ∧ info.artists = unknownArtistLit := by
  obtain ⟨tid, htid⟩ := Option.isSome_iff_exists.mp hid
  have hal : resolveArtistsList (fetchStep t) = [] := by
    unfold resolveArtistsList
    rw [ha1, ha2]
    cases htr : (fetchStep t).track with
    | none => rfl
    | some inner =>
      obtain ⟨_, hia⟩ := hnested inner htr
      simp [truthyList, hia]
  have hti : resolveTitle (fetchStep t) = unknownTrackLit := by
    unfold resolveTitle
    rw [ht]
    cases htr : (fetchStep t).track with
    | none => rfl
    | some inner =>
      obtain ⟨hit, _⟩ := hnested inner htr
      simp [hit]
  have hstr : resolveArtistsStr ([] : List (Option Str)) = .ok unknownArtistLit := rfl
  unfold get_track_info get_track_info_inner
  simp only [htid, hal, hstr]
  exact ⟨_, rfl, hti, rfl⟩

/-- Witness for C6: a bare entry with only an `id` attribute. -/
theorem get_track_info_fallback_literals_witness :
    ∃ info,
      get_track_info (.mk (some "1".toList) none none none none none none none none)
        = some info ∧
      info.title = unknownTrackLit ∧ info.artists = unknownArtistLit :=
  get_track_info_fallback_literals
    (.mk (some "1".toList) none none none none none none none none)
    rfl rfl rfl rfl (fun inner h => nomatch h)

/-! ### Vacuity of the retry policy on `get_track_info` (claim C9) -/

/-- C9: the body of `get_track_info` ends in a catch-all `except` returning
`None`, so it never raises; consequently its `retry_on_error(3, 0.5)`
decorator always returns after exactly one invocation, with no backoff
sleeps and no re-raised exception — the declared retry policy is
unreachable. -/
theorem get_track_info_retry_vacuous (t : Track) :
    (∃ r, get_track_info_body t = .ok r) ∧
    get_track_info_body t = .ok (get_track_info t) ∧
    get_track_info_retry t = (.ok (some (get_track_info t)), [], 1) := by
  have hb : get_track_info_body t = .ok (get_track_info t) := by
    unfold get_track_info_body get_track_info
    cases get_track_info_inner t <;> rfl
  refine ⟨⟨_, hb⟩, hb, ?_⟩
  have h0 := retry_go_first_ok (1 / 2) (fun _ => get_track_info_body t) 0 0 3
    (get_track_info t) (by omega) (fun j hj => absurd hj (Nat.not_lt_zero j)) hb
  unfold get_track_info_retry retry_on_error
  exact h0

/-! ### Endpoint response shape (claim C10) -/

/-- C10: when either submitted URL is empty after stripping or fails
parsing, the endpoint's JSON body carries only the `error` key; whenever
the comparison pipeline actually runs, the body carries exactly the
`common_tracks` and `error` keys (in that order). -/
theorem index_post_keys_spec (fetch : PlaylistRef → Except Str (List Track))
    (firstDone1 : Bool) (setOrder : List Str → List Str) (raw1 raw2 : Str) :
    (((pyStrip raw1).isEmpty = true ∨ (pyStrip raw2).isEmpty = true ∨
      exceptOk (parse_playlist_url (pyStrip raw1)) = false ∨
      exceptOk (parse_playlist_url (pyStrip raw2)) = false) →
      (index_post fetch firstDone1 setOrder raw1 raw2).map Prod.fst
        = ["error".toList]) ∧
    (((pyStrip raw1).isEmpty = false ∧ (pyStrip raw2).isEmpty = false ∧
      exceptOk (parse_playlist_url (pyStrip raw1)) = true ∧
      exceptOk (parse_playlist_url (pyStrip raw2)) = true) →
      (index_post fetch firstDone1 setOrder raw1 raw2).map Prod.fst
        = ["common_tracks".toList, "error".toList]) := by
  by_cases hs1 : (pyStrip raw1).isEmpty = true
  · have hres : (index_post fetch firstDone1 setOrder raw1 raw2).map Prod.fst
        = ["error".toList] := by
      unfold index_post
      simp [hs1]
    refine ⟨fun _ => hres, ?_⟩
    rintro ⟨h, _⟩
    rw [hs1] at h
    exact absurd h (by simp)
  · have hs1' : (pyStrip raw1).isEmpty = false := by
      cases hv : (pyStrip raw1).isEmpty with
      | false => rfl
      | true => exact absurd hv hs1
    by_cases hs2 : (pyStrip raw2).isEmpty = true
    · have hres : (index_post fetch firstDone1 setOrder raw1 raw2).map Prod.fst
          = ["error".toList] := by
        unfold index_post
        simp [hs1', hs2]
      refine ⟨fun _ => hres, ?_⟩
      rintro ⟨_, h, _⟩
      rw [hs2] at h
      exact absurd h (by simp)
    · have hs2' : (pyStrip raw2).isEmpty = false := by
        cases hv : (pyStrip raw2).isEmpty with
        | false => rfl
        | true => exact absurd hv hs2
      cases hp1 : parse_playlist_url (pyStrip raw1) with
      | error e =>
        have hres : (index_post fetch firstDone1 setOrder raw1 raw2).map Prod.fst
            = ["error".toList] := by
          unfold index_post
          simp [hs1', hs2', hp1]
        refine ⟨fun _ => hres, ?_⟩
        rintro ⟨_, _, h, _⟩
        exact absurd h (by simp [exceptOk])
      | ok p1 =>
        cases hp2 : parse_playlist_url (pyStrip raw2) with
        | error e =>
          have hres : (index_post fetch firstDone1 setOrder raw1 raw2).map Prod.fst
              = ["error".toList] := by
            unfold index_post
            simp [hs1', hs2', hp1, hp2]
          refine ⟨fun _ => hres, ?_⟩
          rintro ⟨_, _, _, h⟩
          exact absurd h (by simp [exceptOk])
        | ok p2 =>
          have hres : (index_post fetch firstDone1 setOrder raw1 raw2).map Prod.fst
              = ["common_tracks".toList, "error".toList] := by
            unfold index_post
            simp only [hs1', hs2', hp1, hp2, Bool.or_self, Bool.false_eq_true,
              if_false]
            cases (process_playlists_async fetch firstDone1 setOrder
                (pyStrip raw1) (pyStrip raw2)).error <;> rfl
          refine ⟨?_, fun _ => hres⟩
          rintro (h | h | h | h)
          · rw [hs1'] at h; exact absurd h (by simp)
          · rw [hs2'] at h; exact absurd h (by simp)
          · exact absurd h (by simp [exceptOk])
          · exact absurd h (by simp [exceptOk])

/-- Witness for C10: a blank first URL yields the error-only body; two
well-formed URLs yield the two-key body. -/
theorem index_post_keys_spec_witness :
    (index_post exFetch true (fun l => l) "  ".toList exUrl2).map Prod.fst
      = ["error".toList] ∧
    (index_post exFetch true (fun l => l) exUrl1 exUrl2).map Prod.fst
      = ["common_tracks".toList, "error".toList] :=
  ⟨(index_post_keys_spec exFetch true (fun l => l) "  ".toList exUrl2).1
      (Or.inl (by decide)),
   (index_post_keys_spec exFetch true (fun l => l) exUrl1 exUrl2).2
      ⟨by decide, by decide, by decide, by decide⟩⟩
